import Mathlib

/-!
# Verification of the `go_firestore_filtering` transpiler

Shallow embedding of the expression-to-Firestore-query transpiler in
`filterstore/filterstore.go` (and the page-size validating entrypoint of the
older sibling file).  Protobuf pointer fields are modelled as `Option`; Go's
nil-safe proto getters are embedded explicitly; a Go nil-pointer dereference
(a runtime panic) is modelled by the dedicated result `TResult.nilDeref`.
All status errors produced by this code use the `InvalidArgument` gRPC code.
-/

namespace FilterStore

/-- gRPC status errors produced by the transpiler.  Only the
`codes.InvalidArgument` code is ever used by this code base, so the status is
just that code together with its message. -/
inductive Status where
  | invalidArgument (msg : String)
deriving DecidableEq, Repr

/-- The `constant_kind` oneof of `google.api.expr.v1alpha1.Constant`.
`durationValue`/`timestampValue`/`nullValue` carry payloads the transpiler
never reads, so the payloads are omitted here. -/
inductive ConstantKind where
  | nullValue
  | boolValue (b : Bool)
  | int64Value (i : Int)
  | uint64Value (n : Nat)
  | doubleValue (bits : Nat)
  | stringValue (s : String)
  | bytesValue (bs : List Nat)
  | durationValue
  | timestampValue
deriving DecidableEq, Repr

/-- Proto message `google.api.expr.v1alpha1.Constant`: a message holding the oneof, which may
be unset (`none`, Go's nil interface inside a non-nil message). -/
structure Constant where
  kind : Option ConstantKind
deriving DecidableEq, Repr

/-- A native Go value used as a Firestore query operand (the `interface…`
result of `unwrapConst`, and cursor values).  The double payload is carried as
its raw bit pattern; the transpiler never computes with it. -/
inductive Value where
  | boolV (b : Bool)
  | bytesV (bs : List Nat)
  | doubleV (bits : Nat)
  | intV (i : Int)
  | stringV (s : String)
  | uintV (n : Nat)
deriving DecidableEq, Repr

mutual
/-- Proto message `google.api.expr.v1alpha1.Expr`: a node id (used to look up the node's
type in the checked expression's type map) plus the `expr_kind` oneof, which
may be unset. -/
inductive Expr where
  | mk (id : Int) (kind : Option ExprKind)
deriving Repr

/-- The `expr_kind` oneof of `Expr`, restricted to the variants this
transpiler dispatches on; every other variant (comprehension, list, struct)
takes the same `default` branch as an unset kind, which we model with
`otherExpr`. -/
inductive ExprKind where
  | identExpr (name : String)
  | selectExpr (operand : Option Expr) (field : String)
  | constExpr (c : Option Constant)
  | callExpr (function : String) (args : List Expr)
  | otherExpr
deriving Repr
end

/-- Node id of an `Expr` (proto field `id`). -/
def Expr.id : Expr → Int
  | .mk i _ => i

/-- The `expr_kind` of an `Expr`. -/
def Expr.kind : Expr → Option ExprKind
  | .mk _ k => k

/-- Go's nil-safe getter `e.GetConstExpr()`: the embedded `*Constant` when the
kind is `ConstExpr`, nil otherwise. -/
def Expr.getConstExpr (e : Expr) : Option Constant :=
  match e.kind with
  | some (.constExpr c) => c
  | _ => none

/-- Go's nil-safe getter `c.GetStringValue()` on `*Constant`: the string
payload when the constant is a string, `""` otherwise (also on nil). -/
def getStringValue (c : Option Constant) : String :=
  match c with
  | some ⟨some (.stringValue s)⟩ => s
  | _ => ""

/-- The `type_kind` oneof of `google.api.expr.v1alpha1.Type`, restricted to
the variants `transpileHas` dispatches on; all remaining variants (primitive,
wrapper, …) take the same `default` branch, modelled by `otherType`. -/
inductive TypeKind where
  | messageType (name : String)
  | listType
  | mapType
  | otherType
deriving DecidableEq, Repr

/-- Function-name constants from `go.einride.tech/aip/filtering`. -/
def FunctionEquals : String := "="
def FunctionNotEquals : String := "!="
def FunctionLessThan : String := "<"
def FunctionLessEquals : String := "<="
def FunctionGreaterThan : String := ">"
def FunctionGreaterEquals : String := ">="
def FunctionAnd : String := "AND"
def FunctionOr : String := "OR"
def FunctionNot : String := "NOT"
def FunctionHas : String := ":"

/-- Constant `firestore.DocumentID`: the special field path naming the document
identifier. -/
def DocumentID : String := "__name__"

/-- Ordering directions (`firestore.Asc` / `firestore.Desc`). -/
inductive Direction where
  | asc
  | desc
deriving DecidableEq, Repr

/-- One builder call applied to the underlying `firestore.Query`.  The opaque
builder is embedded as the log of calls made to it, in order.  `whereOp`'s
value and the cursor values are `Option Value`, `none` standing for the Go nil
interface value. -/
inductive QueryOp where
  | whereOp (path op : String) (value : Option Value)
  | orderBy (path : String) (dir : Direction)
  | startAfter (values : List (Option Value))
  | limit (n : Int)
deriving DecidableEq, Repr

/-- The underlying `firestore.Query`: the collection path it was created from
and the builder calls applied so far. -/
structure FsQuery where
  collection : String
  ops : List QueryOp
deriving DecidableEq, Repr

/-! ## `strcase.ToCamel` (github.com/iancoleman/strcase)

`ToCamel` is `toCamelInitCase(s, true)`: trim whitespace, then scan the bytes
keeping a `capNext` flag (initially true).  A lowercase letter is uppercased
when `capNext` is set; letters are emitted and clear `capNext`; digits are
emitted and set it; `_`, ` `, `-`, `.` set it and are dropped; every other
byte is dropped and clears it.  (The lowercase-first-byte branch of
`toCamelInitCase` is only live for `initCase = false`, i.e. `ToLowerCamel`,
and the configurable acronym table is empty by default; both are therefore
omitted.)  The Go code walks bytes; for the ASCII identifiers this repository
feeds it, walking characters is equivalent. -/

def goIsCap (c : Char) : Bool := 65 ≤ c.toNat && c.toNat ≤ 90
def goIsLow (c : Char) : Bool := 97 ≤ c.toNat && c.toNat ≤ 122
def goIsNum (c : Char) : Bool := 48 ≤ c.toNat && c.toNat ≤ 57

def toCamelAux : Bool → List Char → List Char
  | _, [] => []
  | capNext, v :: rest =>
    let vIsCap := goIsCap v
    let vIsLow := goIsLow v
    let v' := if capNext && vIsLow then Char.ofNat (v.toNat - 32) else v
    if vIsCap || vIsLow then
      v' :: toCamelAux false rest
    else if goIsNum v then
      v :: toCamelAux true rest
    else
      toCamelAux (v == '_' || v == ' ' || v == '-' || v == '.') rest

/-- Go predicate `unicode.IsSpace` restricted to ASCII (the only whitespace occurring in
this repository's identifiers; the non-ASCII cases NEL and NBSP are
omitted). -/
def goIsSpace (c : Char) : Bool :=
  c = ' ' || c = '\t' || c = '\n' || c = '\x0b' || c = '\x0c' || c = '\r'

/-- Go function `strings.TrimSpace`: drop leading and trailing whitespace. -/
def trimSpace (l : List Char) : List Char :=
  ((l.dropWhile goIsSpace).reverse.dropWhile goIsSpace).reverse

/-- Go function `strcase.ToCamel`. -/
def toCamel (s : String) : String :=
  String.mk (toCamelAux true (trimSpace s.toList))

/-! ## Leaf transpiler components -/

/-- Function `operator` (filterstore.go): the Firestore operator for a filter function
under a negation flag.  The Go `switch` on the function name is an equality
chain. -/
def operator (function : String) (not : Bool) : Except Status String :=
  if function = FunctionEquals then
    .ok (if not then "!=" else "==")
  else if function = FunctionNotEquals then
    .ok (if not then "==" else "!=")
  else if function = FunctionLessThan then
    .ok (if not then ">=" else "<")
  else if function = FunctionLessEquals then
    .ok (if not then ">" else "<=")
  else if function = FunctionGreaterThan then
    .ok (if not then "<=" else ">")
  else if function = FunctionGreaterEquals then
    .ok (if not then "<" else ">=")
  else
    .error (.invalidArgument
      ("no Firestore operator for " ++ (if not then "NOT " else "") ++ function))

/-- Function `toPath` (filterstore.go): the Firestore path for an expression.  Takes
`Option Expr` because Go passes a possibly-nil `*expr.Expr` (a nil operand of
a `Select` recurses here); on nil, `GetExprKind` returns nil and the default
branch fires.  The Go error message additionally interpolates the `%v`
rendering of the expression, which plays no semantic role and is omitted. -/
def toPath : Option Expr → Except Status String
  | some ⟨_, some (.selectExpr operand field)⟩ =>
    match toPath operand with
    | .error err => .error err
    | .ok p => .ok (p ++ "." ++ toCamel field)
  | some ⟨_, some (.identExpr name)⟩ => .ok (toCamel name)
  | _ => .error (.invalidArgument "unable to get path for expression")

/-- Function `unwrapConst` (filterstore.go) on a NON-nil `*expr.Constant`: switch on the
constant kind, returning the payload, or the nil interface (`none`) for every
other kind.  The Go function reads `c.ConstantKind` without a nil check, so
calling it with a nil pointer panics; call sites below surface that case as
`TResult.nilDeref` instead of applying this function. -/
def unwrapConst (c : Constant) : Option Value :=
  match c.kind with
  | some (.boolValue b) => some (.boolV b)
  | some (.bytesValue bs) => some (.bytesV bs)
  | some (.doubleValue bits) => some (.doubleV bits)
  | some (.int64Value i) => some (.intV i)
  | some (.stringValue s) => some (.stringV s)
  | some (.uint64Value n) => some (.uintV n)
  | _ => none

/-! ## Query state and the tree walk -/

/-- The `query` struct: the accumulated Firestore query, the node-id-to-type
map of the checked expression (`map[int64]*expr.Type`, embedded as an
association list; a missing key yields nil, i.e. `none`), the single
inequality field path (`""` until claimed), and the ordered cursor value list
for `StartAfter`.  The declared-but-never-used `subqueries` field of the Go
struct is omitted. -/
structure QueryState where
  q : FsQuery
  types : List (Int × TypeKind)
  inequality : String
  startAfter : List (Option Value)
deriving DecidableEq, Repr

/-- Lookup in the type map, i.e. `q.types[id]` followed by the nil-safe
`GetTypeKind()`. -/
def QueryState.typeOf (q : QueryState) (id : Int) : Option TypeKind :=
  q.types.lookup id

/-- Result of a transpilation step.  `nilDeref` models a Go nil-pointer
dereference panic (reachable in `transpileEquality`, see below); `err` models
returning a non-nil `error`. -/
inductive TResult (α : Type) where
  | ok (a : α)
  | err (s : Status)
  | nilDeref
deriving DecidableEq, Repr

/-- Method `(*query).setInequality` (filterstore.go): claim the single inequality
field.  First claim records the path; re-claiming the same path is a no-op;
claiming a different path is rejected. -/
def setInequality (q : QueryState) (path : String) : Except Status QueryState :=
  if q.inequality = "" then
    .ok { q with inequality := path }
  else if q.inequality ≠ path then
    .error (.invalidArgument "inequality can only be used on a single field")
  else
    .ok q

/-- The line `path = path[strings.Index(path, ".")+1:]` of `transpileHas`:
drop everything up to and including the first `.` (when `Index` returns `-1`,
`path[0:]` keeps the whole string). -/
def stripPath (s : String) : String :=
  if s.toList.contains '.' then
    String.mk (s.toList.dropWhile (· ≠ '.')).tail
  else s

/-- Method `(*query).transpileHas` (filterstore.go).  `function` is unused by the Go
body (the arity error message hard-codes `": requires two arguments"`), so
only the argument list and negation flag are taken.  The Go code indexes
`e.Args[0]`/`e.Args[1]` after checking `len(e.Args) == 2`; we pattern-match
the two-element list, which is the same thing. -/
def transpileHas (q : QueryState) (args : List Expr) (not : Bool) :
    TResult QueryState :=
  match args with
  | [a0, a1] =>
    match q.typeOf a0.id with
    | some (.messageType _) =>
      match toPath (some a0) with
      | .error err => .err err
      | .ok p =>
        -- path = Sprintf("%s.%s", path, ToCamel(args[1].GetConstExpr().GetStringValue()))
        -- path = path[strings.Index(path, ".")+1:]
        let path := stripPath (p ++ "." ++ toCamel (getStringValue a1.getConstExpr))
        if not then
          .ok { q with q := { q.q with ops := q.q.ops ++ [.whereOp path "==" none] } }
        else
          match setInequality q path with
          | .error err => .err err
          | .ok q' =>
            .ok { q' with
                  startAfter := q'.startAfter ++ [none],
                  q := { q'.q with ops := q'.q.ops ++ [.orderBy path .asc] } }
    | some .listType => .err (.invalidArgument ": must be used on a message, map or list")
    | some .mapType => .err (.invalidArgument ": must be used on a message, map or list")
    | _ => .err (.invalidArgument ": must be used on a message, map or list")
  | _ => .err (.invalidArgument ": requires two arguments")

/-- Method `(*query).transpileEquality` (filterstore.go).  `function` is
`e.Function`, used both for the operator lookup and the arity error message.
The final `Where` call passes `unwrapConst(e.Args[1].GetConstExpr())`: when
`args[1]` is not a constant node, `GetConstExpr` returns nil and `unwrapConst`
dereferences it — a panic, surfaced here as `nilDeref`. -/
def transpileEquality (q : QueryState) (function : String) (args : List Expr)
    (not : Bool) : TResult QueryState :=
  match args with
  | [a0, a1] =>
    match operator function not with
    | .error err => .err err
    | .ok op =>
      match toPath (some a0) with
      | .error err => .err err
      | .ok path =>
        match (if op ≠ "==" then setInequality q path else .ok q) with
        | .error err => .err err
        | .ok q' =>
          match a1.getConstExpr with
          | none => .nilDeref
          | some c =>
            .ok { q' with
                  q := { q'.q with ops := q'.q.ops ++ [.whereOp path op (unwrapConst c)] } }
  | _ => .err (.invalidArgument (function ++ " requires two arguments"))

/-- Method `(*query).transpile` together with `(*query).transpileCall`
(filterstore.go), merged into one recursive function (the Go pair is mutually
recursive; `transpileCall`'s body is the `callExpr` arm here).  A nil
expression is a successful no-op; a top-level constant falls through to the
`invalid filter expression` error (the fuzzy-search TODO), as does every other
node kind (after diagnostic logging, a side effect outside this embedding). -/
def transpile (q : QueryState) (e : Option Expr) (not : Bool) :
    TResult QueryState :=
  match e with
  | none => .ok q
  | some (.mk _ (some (.callExpr function args))) =>
    if function = FunctionNot then
      match args with
      | [a] => transpile q (some a) (!not)
      | _ => .err (.invalidArgument "NOT requires one argument")
    else if function = FunctionHas then
      transpileHas q args not
    else if function = FunctionEquals ∨ function = FunctionNotEquals ∨
        function = FunctionLessThan ∨ function = FunctionLessEquals ∨
        function = FunctionGreaterThan ∨ function = FunctionGreaterEquals then
      transpileEquality q function args not
    else if function = FunctionAnd then
      match args with
      | [a0, a1] =>
        match transpile q (some a0) not with
        | .ok q' => transpile q' (some a1) not
        | r => r
      | _ => .err (.invalidArgument "AND requires two arguments")
    else
      -- FunctionOr falls through the Go switch to the same error.
      .err (.invalidArgument ("unknown filter function " ++ function))
  | some _ => .err (.invalidArgument "invalid filter expression")

/-! ## Entrypoints -/

/-- A checked expression: the root expression (possibly nil) plus the node-id
type map, as produced by the external filter parser/checker
(`filter.CheckedExpr.GetExpr()` / `GetTypeMap()`). -/
structure CheckedExpr where
  expr : Option Expr
  typeMap : List (Int × TypeKind)

/-- The initial query state of `transpiler[T].Transpile` (filterstore.go):
the collection reference `parent/collection` with the page size as limit, and
the checked expression's type map. -/
def initQueryState (parent collection : String) (pageSize : Int)
    (filter : CheckedExpr) : QueryState :=
  { q := { collection := parent ++ "/" ++ collection, ops := [.limit pageSize] },
    types := filter.typeMap, inequality := "", startAfter := [] }

/-- Method `transpiler[T].Transpile` (filterstore.go), up to query execution: build
the initial query state, run the tree walk, stitch pagination (a
document-identifier ascending ordering plus the page token as cursor value
when the token is non-empty), and apply the cursor list as a single
`StartAfter` when non-empty.  The trailing `Documents(ctx).GetAll()` /
`DataTo` execution is I/O against the store and lies outside this
embedding. -/
def Transpile (parent collection pageToken : String) (pageSize : Int)
    (filter : CheckedExpr) : TResult QueryState :=
  match transpile (initQueryState parent collection pageSize filter)
      filter.expr false with
  | .ok q1 =>
    let q2 := if pageToken ≠ "" then
        { q1 with
          q := { q1.q with ops := q1.q.ops ++ [.orderBy DocumentID .asc] },
          startAfter := q1.startAfter ++ [some (.stringV pageToken)] }
      else q1
    .ok (if q2.startAfter.length > 0 then
        { q2 with q := { q2.q with ops := q2.q.ops ++ [.startAfter q2.startAfter] } }
      else q2)
  | r => r

/-- The transpiler configuration of the older sibling file: the collection
name and the pagination defaults extracted from the method descriptor by
`New` (10 and 100 when the proto options are absent). -/
structure TranspilerCfg where
  collection : String
  defaultPageSize : Int
  maxPageSize : Int

/-- The page-size `switch` at the head of the older file's
`(transpiler).Transpile`: negative is rejected, zero selects the configured
default, values above the configured maximum are clamped to it, anything else
passes through. -/
def validatePageSize (t : TranspilerCfg) (pageSize : Int) : Except Status Int :=
  if pageSize < 0 then
    .error (.invalidArgument "page size cannot be negative")
  else if pageSize = 0 then
    .ok t.defaultPageSize
  else if pageSize > t.maxPageSize then
    .ok t.maxPageSize
  else
    .ok pageSize

/-- The fields of an inbound `ListRequest`. -/
structure ListRequest where
  parent : String
  pageSize : Int
  pageToken : String
  filter : String

/-- The query-building tail of the older file's `(transpiler).Transpile`
(everything after `filtering.ParseFilter` succeeds): build the query state
from the collection reference — note the validated page size is never applied
to the query, there is no `Limit` call in this version — run the tree walk,
and stitch pagination exactly as in `Transpile`. -/
def buildQueryV0 (t : TranspilerCfg) (req : ListRequest)
    (filter : CheckedExpr) : TResult QueryState :=
  let q0 : QueryState :=
    { q := { collection := req.parent ++ "/" ++ t.collection, ops := [] },
      types := filter.typeMap, inequality := "", startAfter := [] }
  match transpile q0 filter.expr false with
  | .ok q1 =>
    let q2 := if req.pageToken ≠ "" then
        { q1 with
          q := { q1.q with ops := q1.q.ops ++ [.orderBy DocumentID .asc] },
          startAfter := q1.startAfter ++ [some (.stringV req.pageToken)] }
      else q1
    .ok (if q2.startAfter.length > 0 then
        { q2 with q := { q2.q with ops := q2.q.ops ++ [.startAfter q2.startAfter] } }
      else q2)
  | r => r

/-- Method `(transpiler).Transpile` of the older sibling file, up to query
execution.  The page size is validated first; `filtering.ParseFilter` is the
external parser, supplied here as its result (`parsed`). -/
def TranspileV0 (t : TranspilerCfg) (req : ListRequest)
    (parsed : Except Status CheckedExpr) : TResult QueryState :=
  match validatePageSize t req.pageSize with
  | .error err => .err err
  | .ok _pageSize =>
    match parsed with
    | .error err => .err err
    | .ok filter => buildQueryV0 t req filter

/-! ## Vocabulary used by the theorem statements -/

/-- The logical complement of a Firestore comparison operator (the spec's
notion used to state the double-negation property). -/
def negatedOp : String → Option String
  | "==" => some "!="
  | "!=" => some "=="
  | "<" => some ">="
  | ">=" => some "<"
  | "<=" => some ">"
  | ">" => some "<="
  | _ => none

/-- A dotted field path: the given segments joined by `.`, in order. -/
def dottedPath : List String → String
  | [] => ""
  | s :: rest => rest.foldl (fun p seg => p ++ "." ++ seg) s

/-- A nested `Select` chain over a root expression: each listed field wraps
the accumulated expression in one more `Select` node (so the last listed
field belongs to the outermost node). -/
def selectChain (root : Expr) (fields : List String) : Expr :=
  fields.foldl (fun e f => .mk 0 (some (.selectExpr (some e) f))) root

/-- Whether an expression kind is one `toPath` can resolve (`Identifier` or
`Select`). -/
def isPathExprKind : Option ExprKind → Bool
  | some (.identExpr _) => true
  | some (.selectExpr _ _) => true
  | _ => false

/-- Resolving `toPath` over a `Select` chain: starting from any resolvable root, each
chained field appends `"." ++ toCamel field` to the root's path. -/
theorem toPath_selectChain (fields : List String) :
    ∀ (e : Expr) (p : String), toPath (some e) = .ok p →
      toPath (some (selectChain e fields)) =
        .ok (fields.foldl (fun acc f => acc ++ "." ++ toCamel f) p) := by
  induction fields with
  | nil => intro e p h; simpa [selectChain] using h
  | cons f fs ih =>
    intro e p h
    have hstep : toPath (some (Expr.mk 0 (some (.selectExpr (some e) f)))) =
        .ok (p ++ "." ++ toCamel f) := by
      simp [toPath, h]
    simpa [selectChain] using ih _ _ hstep

/-- Conversion `(Char.ofNat n).toNat` round-trips below the surrogate range (all byte
values used here). -/
theorem charOfNat_toNat (n : Nat) (h : n < 55296) : (Char.ofNat n).toNat = n := by
  rw [Char.ofNat, dif_pos (Or.inl h)]
  rfl

/-- Helper `toCamelAux` never emits a dot: dots act only as capitalization
separators. -/
theorem dot_not_mem_toCamelAux (l : List Char) : ∀ b, '.' ∉ toCamelAux b l := by
  induction l with
  | nil => intro b; simp [toCamelAux]
  | cons v rest ih =>
    intro b
    simp only [toCamelAux]
    by_cases h1 : (goIsCap v || goIsLow v) = true
    · rw [if_pos h1]
      simp only [List.mem_cons, not_or]
      constructor
      · by_cases h3 : (b && goIsLow v) = true
        · rw [if_pos h3]
          have hlow : 97 ≤ v.toNat ∧ v.toNat ≤ 122 := by
            have hl := ((Bool.and_eq_true _ _).mp h3).2
            simpa [goIsLow, Bool.and_eq_true, decide_eq_true_iff] using hl
          intro heq
          have h' := congrArg Char.toNat heq
          rw [charOfNat_toNat (v.toNat - 32) (by omega)] at h'
          have h46 : ('.' : Char).toNat = 46 := by decide
          omega
        · rw [if_neg h3]
          intro heq; rw [← heq] at h1; exact absurd h1 (by decide)
      · exact ih false
    · rw [if_neg h1]
      by_cases h2 : goIsNum v = true
      · rw [if_pos h2]
        simp only [List.mem_cons, not_or]
        refine ⟨?_, ih true⟩
        intro heq; rw [← heq] at h2; exact absurd h2 (by decide)
      · rw [if_neg h2]; exact ih _

/-- A camel-cased segment contains no dot. -/
theorem toCamel_no_dot (s : String) : '.' ∉ (toCamel s).toList :=
  dot_not_mem_toCamelAux _ _

/-- Dropping up to the first dot of `a ++ "." ++ b` skips exactly `a` when
`a` is dot-free. -/
theorem strip_after_dot (a b : List Char) (ha : '.' ∉ a) :
    (a ++ '.' :: b).dropWhile (· ≠ '.') = '.' :: b := by
  induction a with
  | nil => simp [List.dropWhile_cons]
  | cons x xs ih =>
    have hx : x ≠ '.' := fun hx => ha (hx ▸ List.mem_cons_self x xs)
    simp only [List.cons_append]
    rw [List.dropWhile_cons_of_pos (by simp [hx])]
    exact ih (fun hm => ha (List.mem_cons_of_mem x hm))

/-- A list of the shape `a ++ "." ++ b` contains a dot. -/
theorem contains_dot (a b : List Char) : (a ++ '.' :: b).contains '.' = true := by
  simp [List.contains]

/-! ## Concrete scenario inputs

Checked expressions for the spec's scenario filters, with arbitrary distinct
node ids (only `has` consults the type map, keyed by the id of its first
argument). -/

/-- An empty query state over the given collection path and type map. -/
def emptyState (coll : String) (types : List (Int × TypeKind)) : QueryState :=
  { q := { collection := coll, ops := [] }, types := types, inequality := "",
    startAfter := [] }

def identAge : Expr := .mk 2 (some (.identExpr "age"))
def ageGt30 : Expr := .mk 1 (some (.callExpr FunctionGreaterThan
  [identAge, .mk 3 (some (.constExpr (some ⟨some (.int64Value 30)⟩)))]))
def ageLt65 : Expr := .mk 4 (some (.callExpr FunctionLessThan
  [.mk 5 (some (.identExpr "age")), .mk 6 (some (.constExpr (some ⟨some (.int64Value 65)⟩)))]))
def heightGt180 : Expr := .mk 7 (some (.callExpr FunctionGreaterThan
  [.mk 8 (some (.identExpr "height")), .mk 9 (some (.constExpr (some ⟨some (.int64Value 180)⟩)))]))
def andExpr (a b : Expr) : Expr := .mk 0 (some (.callExpr FunctionAnd [a, b]))
def constOne : Expr := .mk 11 (some (.constExpr (some ⟨some (.int64Value 1)⟩)))
def ageNeq1 : Expr := .mk 12 (some (.callExpr FunctionNotEquals [identAge, constOne]))
def identProfile : Expr := .mk 20 (some (.identExpr "profile"))
def constBio : Expr := .mk 21 (some (.constExpr (some ⟨some (.stringValue "bio")⟩)))
def hasProfileBio : Expr := .mk 22 (some (.callExpr FunctionHas [identProfile, constBio]))
def notHasProfileBio : Expr := .mk 23 (some (.callExpr FunctionNot [hasProfileBio]))
def profileTypes : List (Int × TypeKind) := [(20, .messageType "Profile")]
def identHeight : Expr := .mk 30 (some (.identExpr "height"))
def ageEqHeight : Expr := .mk 31 (some (.callExpr FunctionEquals [identAge, identHeight]))

/-! ## Claims -/

/-- C5: for each of the six relational function names, `operator` returns
exactly the operator of the spec's table (left column when the negation flag
is false, right column when true), and for every other function name it
fails with an `InvalidArgument` error naming the function and its
negation. -/
theorem c5_operator_table :
    (operator FunctionEquals false = .ok "==" ∧ operator FunctionEquals true = .ok "!=") ∧
    (operator FunctionNotEquals false = .ok "!=" ∧ operator FunctionNotEquals true = .ok "==") ∧
    (operator FunctionLessThan false = .ok "<" ∧ operator FunctionLessThan true = .ok ">=") ∧
    (operator FunctionLessEquals false = .ok "<=" ∧ operator FunctionLessEquals true = .ok ">") ∧
    (operator FunctionGreaterThan false = .ok ">" ∧ operator FunctionGreaterThan true = .ok "<=") ∧
    (operator FunctionGreaterEquals false = .ok ">=" ∧ operator FunctionGreaterEquals true = .ok "<") ∧
    (∀ f nt, f ∉ ([FunctionEquals, FunctionNotEquals, FunctionLessThan,
        FunctionLessEquals, FunctionGreaterThan, FunctionGreaterEquals] : List String) →
      operator f nt = .error (.invalidArgument
        ("no Firestore operator for " ++ (if nt then "NOT " else "") ++ f))) := by
  refine ⟨⟨rfl, rfl⟩, ⟨rfl, rfl⟩, ⟨rfl, rfl⟩, ⟨rfl, rfl⟩, ⟨rfl, rfl⟩, ⟨rfl, rfl⟩, ?_⟩
  intro f nt h
  simp only [List.mem_cons, List.mem_singleton, not_or] at h
  obtain ⟨h1, h2, h3, h4, h5, h6⟩ := h
  simp [operator, h1, h2, h3, h4, h5, h6]

/-- Witness for C5: an unsupported function name is rejected with the error
naming the function and its negation. -/
theorem c5_operator_table_witness :
    operator "foo" true = .error (.invalidArgument "no Firestore operator for NOT foo") :=
  c5_operator_table.2.2.2.2.2.2 "foo" true (by decide)

/-- C6: for every relational function and negation flag, the operator for the
flipped flag is the logical complement of the operator for the original flag,
and flipping the flag twice yields the base operator again. -/
theorem c6_operator_double_negation (f : String) (nt : Bool) (op : String)
    (h : operator f nt = .ok op) :
    (∃ op', operator f (!nt) = .ok op' ∧ negatedOp op = some op' ∧
      negatedOp op' = some op) ∧
    operator f (!(!nt)) = operator f nt := by
  refine ⟨?_, by simp⟩
  by_cases h1 : f = FunctionEquals
  · subst h1; cases nt <;> simp [operator, FunctionEquals, FunctionNotEquals, FunctionLessThan,
      FunctionLessEquals, FunctionGreaterThan, FunctionGreaterEquals, negatedOp] at h ⊢ <;>
      subst h <;> decide
  by_cases h2 : f = FunctionNotEquals
  · subst h2; cases nt <;> simp [operator, FunctionEquals, FunctionNotEquals, FunctionLessThan,
      FunctionLessEquals, FunctionGreaterThan, FunctionGreaterEquals, negatedOp] at h ⊢ <;>
      subst h <;> decide
  by_cases h3 : f = FunctionLessThan
  · subst h3; cases nt <;> simp [operator, FunctionEquals, FunctionNotEquals, FunctionLessThan,
      FunctionLessEquals, FunctionGreaterThan, FunctionGreaterEquals, negatedOp] at h ⊢ <;>
      subst h <;> decide
  by_cases h4 : f = FunctionLessEquals
  · subst h4; cases nt <;> simp [operator, FunctionEquals, FunctionNotEquals, FunctionLessThan,
      FunctionLessEquals, FunctionGreaterThan, FunctionGreaterEquals, negatedOp] at h ⊢ <;>
      subst h <;> decide
  by_cases h5 : f = FunctionGreaterThan
  · subst h5; cases nt <;> simp [operator, FunctionEquals, FunctionNotEquals, FunctionLessThan,
      FunctionLessEquals, FunctionGreaterThan, FunctionGreaterEquals, negatedOp] at h ⊢ <;>
      subst h <;> decide
  by_cases h6 : f = FunctionGreaterEquals
  · subst h6; cases nt <;> simp [operator, FunctionEquals, FunctionNotEquals, FunctionLessThan,
      FunctionLessEquals, FunctionGreaterThan, FunctionGreaterEquals, negatedOp] at h ⊢ <;>
      subst h <;> decide
  · simp [operator, h1, h2, h3, h4, h5, h6] at h

/-- Witness for C6 at the equals function with the flag down. -/
theorem c6_operator_double_negation_witness :
    (∃ op', operator FunctionEquals (!false) = .ok op' ∧ negatedOp "==" = some op' ∧
      negatedOp op' = some "==") ∧
    operator FunctionEquals (!(!false)) = operator FunctionEquals false :=
  c6_operator_double_negation FunctionEquals false "==" rfl

/-- C7: for every nested `Select` chain over an identifier root, `toPath`
produces exactly the dotted path of the camel-cased segments, root first and
the innermost selected field last; every node that is neither an `Identifier`
nor a `Select` fails with the `unable to get path for expression` error (as
does a nil expression). -/
theorem c7_path_resolver :
    (∀ (i : Int) (name : String) (fields : List String),
      toPath (some (selectChain (.mk i (some (.identExpr name))) fields)) =
        .ok (dottedPath ((name :: fields).map toCamel))) ∧
    (∀ e : Expr, isPathExprKind e.kind = false →
      toPath (some e) = .error (.invalidArgument "unable to get path for expression")) ∧
    toPath none = .error (.invalidArgument "unable to get path for expression") := by
  refine ⟨?_, ?_, by simp [toPath]⟩
  · intro i name fields
    have hroot : toPath (some (Expr.mk i (some (.identExpr name)))) = .ok (toCamel name) := by
      simp [toPath]
    rw [toPath_selectChain fields _ _ hroot]
    simp [dottedPath, List.foldl_map]
  · intro e he
    match e with
    | .mk i none => simp [toPath]
    | .mk i (some (.identExpr n)) => simp [isPathExprKind, Expr.kind] at he
    | .mk i (some (.selectExpr o fl)) => simp [isPathExprKind, Expr.kind] at he
    | .mk i (some (.constExpr c)) => simp [toPath]
    | .mk i (some (.callExpr fn args)) => simp [toPath]
    | .mk i (some .otherExpr) => simp [toPath]

/-- Witness for C7: the chain `a.b.c` resolves to `A.B.C`, and a constant
node is rejected. -/
theorem c7_path_resolver_witness :
    toPath (some (selectChain (.mk 0 (some (.identExpr "a"))) ["b", "c"])) =
      .ok (dottedPath (("a" :: ["b", "c"]).map toCamel)) ∧
    toPath (some (.mk 1 (some (.constExpr none)))) =
      .error (.invalidArgument "unable to get path for expression") :=
  ⟨c7_path_resolver.1 0 "a" ["b", "c"],
   c7_path_resolver.2.1 (.mk 1 (some (.constExpr none))) rfl⟩

/-- C3: the inequality guard's first claim records the path and succeeds,
re-claiming the same path succeeds (idempotent), and claiming a different
path fails with the single-field error; consequently the filter
`age > 30 AND age < 65` transpiles to two predicates on `Age` with the
inequality field fixed, while `age > 30 AND height > 180` is rejected with
the multiple-inequality error. -/
theorem c3_single_inequality_field :
    (∀ (q : QueryState) (path : String), q.inequality = "" →
      setInequality q path = .ok { q with inequality := path }) ∧
    (∀ (q : QueryState) (path : String), q.inequality = path →
      setInequality q path = .ok q) ∧
    (∀ (q : QueryState) (path : String), q.inequality ≠ "" → q.inequality ≠ path →
      setInequality q path =
        .error (.invalidArgument "inequality can only be used on a single field")) ∧
    transpile (emptyState "p/c" []) (some (andExpr ageGt30 ageLt65)) false =
      .ok { q := { collection := "p/c",
                   ops := [.whereOp "Age" ">" (some (.intV 30)),
                           .whereOp "Age" "<" (some (.intV 65))] },
            types := [], inequality := "Age", startAfter := [] } ∧
    transpile (emptyState "p/c" []) (some (andExpr ageGt30 heightGt180)) false =
      .err (.invalidArgument "inequality can only be used on a single field") := by
  refine ⟨?_, ?_, ?_, ?_, ?_⟩
  · intro q path h
    simp [setInequality, h]
  · intro q path h
    subst h
    unfold setInequality
    split_ifs with h1 h2
    · rfl
    · exact absurd rfl h2
    · rfl
  · intro q path h1 h2
    simp [setInequality, h1, h2]
  · simp [transpile, transpileEquality, operator, toPath, setInequality, Expr.getConstExpr,
      Expr.kind, unwrapConst, Expr.id, emptyState, andExpr, ageGt30, ageLt65, identAge,
      FunctionNot, FunctionHas, FunctionEquals, FunctionNotEquals, FunctionLessThan,
      FunctionLessEquals, FunctionGreaterThan, FunctionGreaterEquals, FunctionAnd]
    decide
  · simp [transpile, transpileEquality, operator, toPath, setInequality, Expr.getConstExpr,
      Expr.kind, unwrapConst, Expr.id, emptyState, andExpr, ageGt30, heightGt180, identAge,
      FunctionNot, FunctionHas, FunctionEquals, FunctionNotEquals, FunctionLessThan,
      FunctionLessEquals, FunctionGreaterThan, FunctionGreaterEquals, FunctionAnd]
    decide

/-- Witness for C3: a fresh state accepts the first claim of `Age`. -/
theorem c3_single_inequality_field_witness :
    setInequality (emptyState "p/c" []) "Age" =
      .ok { emptyState "p/c" [] with inequality := "Age" } :=
  c3_single_inequality_field.1 (emptyState "p/c" []) "Age" rfl

/-- C1 counterexample: the claim states that a comparison resolving to the
not-equals operator does not occupy the single-inequality-field slot.  In the
code, `transpileEquality` claims the slot for every operator other than
`"=="`: after transpiling `age != 1` from a fresh state the inequality field
is `"Age"` (not empty), and the follow-up inequality `height > 180` on a
second field is rejected. -/
theorem c1_counterexample_not_equals_occupies_slot :
    transpileEquality (emptyState "p/c" []) FunctionNotEquals [identAge, constOne] false =
      .ok { q := { collection := "p/c", ops := [.whereOp "Age" "!=" (some (.intV 1))] },
            types := [], inequality := "Age", startAfter := [] } ∧
    ("Age" : String) ≠ "" ∧
    transpile (emptyState "p/c" []) (some (andExpr ageNeq1 heightGt180)) false =
      .err (.invalidArgument "inequality can only be used on a single field") := by
  refine ⟨?_, by decide, ?_⟩
  · simp [transpileEquality, operator, toPath, setInequality, Expr.getConstExpr,
      Expr.kind, unwrapConst, Expr.id, emptyState, identAge, constOne,
      FunctionEquals, FunctionNotEquals]
    decide
  · simp [transpile, transpileEquality, operator, toPath, setInequality, Expr.getConstExpr,
      Expr.kind, unwrapConst, Expr.id, emptyState, andExpr, ageNeq1, heightGt180, identAge,
      constOne, FunctionNot, FunctionHas, FunctionEquals, FunctionNotEquals, FunctionLessThan,
      FunctionLessEquals, FunctionGreaterThan, FunctionGreaterEquals, FunctionAnd]
    decide

/-- C1 amended: in the comparison procedure the inequality guard is invoked
if and only if the mapped operator is anything but the equals operator
(`"=="`) — so a not-equals comparison does occupy the single-inequality-field
slot: for equals the state's inequality field is untouched regardless of its
value, while for every other operator (including `"!="`) a fresh slot is
claimed with the comparison's path and a differing occupied slot yields the
single-field error. -/
theorem c1_amended_guard_iff_op_not_equals (q : QueryState) (f : String)
    (a0 a1 : Expr) (c : Constant) (nt : Bool) (op path : String)
    (hop : operator f nt = .ok op) (hpath : toPath (some a0) = .ok path)
    (hc : a1.getConstExpr = some c) :
    (op = "==" →
      transpileEquality q f [a0, a1] nt =
        .ok { q with q := { q.q with ops := q.q.ops ++ [.whereOp path op (unwrapConst c)] } }) ∧
    (op ≠ "==" → q.inequality = "" →
      transpileEquality q f [a0, a1] nt =
        .ok { q with
              inequality := path,
              q := { q.q with ops := q.q.ops ++ [.whereOp path op (unwrapConst c)] } }) ∧
    (op ≠ "==" → q.inequality ≠ "" → q.inequality ≠ path →
      transpileEquality q f [a0, a1] nt =
        .err (.invalidArgument "inequality can only be used on a single field")) := by
  refine ⟨?_, ?_, ?_⟩
  · intro he
    subst he
    simp [transpileEquality, hop, hpath, hc]
  · intro hne hempty
    simp [transpileEquality, hop, hpath, hc, hne, setInequality, hempty]
  · intro hne hset hdiff
    simp [transpileEquality, hop, hpath, hc, hne, setInequality, hset, hdiff]

/-- Witness for the amended C1: `age != 1` claims a fresh slot, and is
rejected when the slot is already held by `Height`. -/
theorem c1_amended_guard_witness :
    transpileEquality (emptyState "p/c" []) FunctionNotEquals [identAge, constOne] false =
      .ok { emptyState "p/c" [] with
            inequality := "Age",
            q := { (emptyState "p/c" []).q with
                   ops := (emptyState "p/c" []).q.ops ++
                     [.whereOp "Age" "!=" (unwrapConst ⟨some (.int64Value 1)⟩)] } } ∧
    transpileEquality { emptyState "p/c" [] with inequality := "Height" }
        FunctionNotEquals [identAge, constOne] false =
      .err (.invalidArgument "inequality can only be used on a single field") :=
  ⟨(c1_amended_guard_iff_op_not_equals (emptyState "p/c" []) FunctionNotEquals
      identAge constOne ⟨some (.int64Value 1)⟩ false "!=" "Age"
      rfl (by simp [toPath, identAge]; decide) rfl).2.1 (by decide) rfl,
   (c1_amended_guard_iff_op_not_equals { emptyState "p/c" [] with inequality := "Height" }
      FunctionNotEquals identAge constOne ⟨some (.int64Value 1)⟩ false "!=" "Age"
      rfl (by simp [toPath, identAge]; decide) rfl).2.2 (by decide) (by decide) (by decide)⟩

/-- C2 counterexample: for `NOT has(profile, "bio")` with `profile` a
message-typed identifier, the transpiled predicate's path is `"Bio"`, not
`"profile.bio"` as the claim states: the path is built as
`ToCamel("profile") ++ "." ++ ToCamel("bio") = "Profile.Bio"` and the
stripping of everything up to the first dot removes the whole camel-cased
`args[0]` segment. -/
theorem c2_counterexample_predicate_path :
    transpile (emptyState "p/c" profileTypes) (some notHasProfileBio) false =
      .ok { q := { collection := "p/c", ops := [.whereOp "Bio" "==" none] },
            types := profileTypes, inequality := "", startAfter := [] } ∧
    ("Bio" : String) ≠ "profile.bio" := by
  refine ⟨?_, by decide⟩
  simp [transpile, transpileHas, stripPath, toPath, setInequality, Expr.getConstExpr, getStringValue,
    Expr.kind, Expr.id, emptyState, notHasProfileBio, hasProfileBio, identProfile, constBio,
    profileTypes, QueryState.typeOf,
    FunctionNot, FunctionHas, FunctionEquals, FunctionNotEquals, FunctionLessThan,
    FunctionLessEquals, FunctionGreaterThan, FunctionGreaterEquals, FunctionAnd]
  decide

/-- C2 amended: for `NOT has(a, "f")` where `a` is a message-typed
identifier, transpilation succeeds and adds exactly one predicate
`ToCamel(f) == null`: the existence procedure builds the path from `args[0]`,
appends the camel-cased string value of `args[1]`, and strips everything up
to and including the first `.` — which, the camel-cased `args[0]` being a
single dot-free segment, removes that whole segment and leaves only the
camel-cased field name. -/
theorem c2_amended_not_has_single_null_predicate (q : QueryState)
    (pid fid i j : Int) (pname fname mname : String)
    (ht : q.typeOf pid = some (.messageType mname)) :
    transpileHas q [.mk pid (some (.identExpr pname)),
        .mk fid (some (.constExpr (some ⟨some (.stringValue fname)⟩)))] true =
      .ok { q with q := { q.q with ops := q.q.ops ++
        [.whereOp (toCamel fname) "==" none] } } ∧
    transpile q (some (.mk i (some (.callExpr FunctionNot
        [.mk j (some (.callExpr FunctionHas
          [.mk pid (some (.identExpr pname)),
           .mk fid (some (.constExpr (some ⟨some (.stringValue fname)⟩)))]))])))) false =
      .ok { q with q := { q.q with ops := q.q.ops ++
        [.whereOp (toCamel fname) "==" none] } } := by
  have hmain : transpileHas q [Expr.mk pid (some (.identExpr pname)),
      Expr.mk fid (some (.constExpr (some ⟨some (.stringValue fname)⟩)))] true =
      .ok { q with q := { q.q with ops := q.q.ops ++
        [.whereOp (toCamel fname) "==" none] } } := by
    simp only [transpileHas, stripPath, Expr.id, ht, toPath, Expr.getConstExpr, Expr.kind,
      getStringValue]
    have hlist : (toCamel pname ++ "." ++ toCamel fname).toList =
        (toCamel pname).toList ++ '.' :: (toCamel fname).toList := by
      simp [String.toList, String.data_append]
    rw [hlist, contains_dot, if_pos rfl, strip_after_dot _ _ (toCamel_no_dot pname)]
    rfl
  refine ⟨hmain, ?_⟩
  rw [show transpile q (some (.mk i (some (.callExpr FunctionNot
      [.mk j (some (.callExpr FunctionHas
        [.mk pid (some (.identExpr pname)),
         .mk fid (some (.constExpr (some ⟨some (.stringValue fname)⟩)))]))])))) false =
      transpileHas q [.mk pid (some (.identExpr pname)),
        .mk fid (some (.constExpr (some ⟨some (.stringValue fname)⟩)))] true from by
    simp [transpile, FunctionNot, FunctionHas]]
  exact hmain

/-- Witness for the amended C2 at the `profile`/`bio` scenario. -/
theorem c2_amended_witness :
    transpileHas (emptyState "p/c" profileTypes) [.mk 20 (some (.identExpr "profile")),
        .mk 21 (some (.constExpr (some ⟨some (.stringValue "bio")⟩)))] true =
      .ok { emptyState "p/c" profileTypes with
            q := { (emptyState "p/c" profileTypes).q with
                   ops := (emptyState "p/c" profileTypes).q.ops ++
                     [.whereOp (toCamel "bio") "==" none] } } ∧
    transpile (emptyState "p/c" profileTypes) (some (.mk 23 (some (.callExpr FunctionNot
        [.mk 22 (some (.callExpr FunctionHas
          [.mk 20 (some (.identExpr "profile")),
           .mk 21 (some (.constExpr (some ⟨some (.stringValue "bio")⟩)))]))])))) false =
      .ok { emptyState "p/c" profileTypes with
            q := { (emptyState "p/c" profileTypes).q with
                   ops := (emptyState "p/c" profileTypes).q.ops ++
                     [.whereOp (toCamel "bio") "==" none] } } :=
  c2_amended_not_has_single_null_predicate (emptyState "p/c" profileTypes)
    20 21 23 22 "profile" "bio" "Profile" rfl

/-- C10: the constant unwrapper is applied to `args[1].GetConstExpr()`
without a nil check, so a relational comparison whose second argument is an
identifier (not a constant) reaches the nil-dereference branch — modelled as
`TResult.nilDeref` — instead of returning an `InvalidArgument` error: shown
for `age = height` both at `transpileEquality` and through the full tree
walk. -/
theorem c10_nil_deref_reachable :
    transpileEquality (emptyState "p/c" []) FunctionEquals [identAge, identHeight] false =
      .nilDeref ∧
    transpile (emptyState "p/c" []) (some ageEqHeight) false = .nilDeref := by
  constructor
  · simp [transpileEquality, operator, toPath, setInequality, Expr.getConstExpr,
      Expr.kind, Expr.id, emptyState, identAge, identHeight, FunctionEquals]
  · simp [transpile, transpileEquality, operator, toPath, setInequality, Expr.getConstExpr,
      Expr.kind, Expr.id, emptyState, ageEqHeight, identAge, identHeight,
      FunctionNot, FunctionHas, FunctionEquals, FunctionNotEquals, FunctionLessThan,
      FunctionLessEquals, FunctionGreaterThan, FunctionGreaterEquals, FunctionAnd]

/-- Whether a builder call is an `OrderBy`. -/
def isOrderByOp : QueryOp → Bool
  | .orderBy _ _ => true
  | _ => false

/-- Number of ordering clauses among the builder calls. -/
def orderByCount (ops : List QueryOp) : Nat := (ops.filter isOrderByOp).length

/-- The cursor/ordering alignment invariant: the query has as many ordering
clauses as the state has cursor values. -/
def cursorAligned (q : QueryState) : Prop :=
  orderByCount q.q.ops = q.startAfter.length

theorem orderByCount_append (l1 l2 : List QueryOp) :
    orderByCount (l1 ++ l2) = orderByCount l1 + orderByCount l2 := by
  simp [orderByCount, List.filter_append]

/-- A successful `setInequality` changes neither the built query nor the
cursor list. -/
theorem setInequality_ok_components (q : QueryState) (path : String) (q' : QueryState)
    (h : setInequality q path = .ok q') : q'.q = q.q ∧ q'.startAfter = q.startAfter := by
  unfold setInequality at h
  split_ifs at h <;> (cases h; exact ⟨rfl, rfl⟩)

/-- Unfolding of `transpileHas` in the message-typed case. -/
theorem transpileHas_message (q : QueryState) (a0 a1 : Expr) (mname p : String)
    (htk : q.typeOf a0.id = some (.messageType mname))
    (hp : toPath (some a0) = .ok p) (nt : Bool) :
    transpileHas q [a0, a1] nt =
      (if nt then
        .ok { q with q := { q.q with ops := q.q.ops ++
          [.whereOp (stripPath (p ++ "." ++ toCamel (getStringValue a1.getConstExpr))) "==" none] } }
      else
        match setInequality q (stripPath (p ++ "." ++ toCamel (getStringValue a1.getConstExpr))) with
        | .error err => .err err
        | .ok q2 =>
          .ok { q2 with
                startAfter := q2.startAfter ++ [none],
                q := { q2.q with ops := q2.q.ops ++
                  [.orderBy (stripPath (p ++ "." ++ toCamel (getStringValue a1.getConstExpr))) .asc] } }) := by
  simp [transpileHas, htk, hp]

/-- Procedure `transpileHas` preserves the cursor/ordering alignment invariant. -/
theorem transpileHas_aligned (q : QueryState) (args : List Expr) (nt : Bool) (q' : QueryState)
    (h : transpileHas q args nt = .ok q') (hal : cursorAligned q) : cursorAligned q' := by
  rcases args with _ | ⟨a0, _ | ⟨a1, _ | ⟨a2, tail⟩⟩⟩
  · simp [transpileHas] at h
  · simp [transpileHas] at h
  · rcases htk : q.typeOf a0.id with _ | (⟨mname⟩ | _ | _ | _)
    · simp [transpileHas, htk] at h
    · rcases hp : toPath (some a0) with perr | p
      · simp [transpileHas, htk, hp] at h
      rw [transpileHas_message q a0 a1 mname p htk hp nt] at h
      cases nt
      · rw [if_neg (show ¬(false = true) by simp)] at h
        rcases hset : setInequality q
            (stripPath (p ++ "." ++ toCamel (getStringValue a1.getConstExpr))) with serr | q2
        · rw [hset] at h; cases h
        · rw [hset] at h
          cases h
          obtain ⟨hq, hsa⟩ := setInequality_ok_components _ _ _ hset
          simp [cursorAligned, hq, hsa, orderByCount_append, orderByCount, isOrderByOp] at hal ⊢
          omega
      · rw [if_pos rfl] at h
        cases h
        simpa [cursorAligned, orderByCount_append, orderByCount, isOrderByOp] using hal
    · simp [transpileHas, htk] at h
    · simp [transpileHas, htk] at h
    · simp [transpileHas, htk] at h
  · simp [transpileHas] at h



/-- Procedure `transpileEquality` preserves the cursor/ordering alignment invariant
(it adds neither ordering clauses nor cursor values). -/
theorem transpileEquality_aligned (q : QueryState) (f : String) (args : List Expr)
    (nt : Bool) (q' : QueryState)
    (h : transpileEquality q f args nt = .ok q') (hal : cursorAligned q) :
    cursorAligned q' := by
  rcases args with _ | ⟨a0, _ | ⟨a1, _ | ⟨a2, tail⟩⟩⟩
  · simp [transpileEquality] at h
  · simp [transpileEquality] at h
  · rcases hop : operator f nt with oerr | op
    · simp [transpileEquality, hop] at h
    rcases hp : toPath (some a0) with perr | p
    · simp [transpileEquality, hop, hp] at h
    rcases hset : (if op ≠ "==" then setInequality q p else .ok q) with serr | q2
    · simp [transpileEquality, hop, hp, hset] at h
    · have hq2 : q2.q = q.q ∧ q2.startAfter = q.startAfter := by
        by_cases hne : op ≠ "=="
        · rw [if_pos hne] at hset
          exact setInequality_ok_components _ _ _ hset
        · rw [if_neg hne] at hset
          cases hset
          exact ⟨rfl, rfl⟩
      rcases hc : a1.getConstExpr with _ | c
      · simp [transpileEquality, hop, hp, hset, hc] at h
      · simp only [transpileEquality, hop, hp, hset, hc] at h
        cases h
        obtain ⟨hq, hsa⟩ := hq2
        simp [cursorAligned, hq, hsa, orderByCount_append, orderByCount, isOrderByOp] at hal ⊢
        omega
  · simp [transpileEquality] at h



/-- One-step unfolding of `transpile` at a call node (the body of the Go
`transpileCall`). -/
theorem transpile_call_step (q : QueryState) (i : Int) (f : String) (args : List Expr) (nt : Bool) :
    transpile q (some (.mk i (some (.callExpr f args)))) nt =
      (if f = FunctionNot then
        match args with
        | [a] => transpile q (some a) (!nt)
        | _ => .err (.invalidArgument "NOT requires one argument")
      else if f = FunctionHas then
        transpileHas q args nt
      else if f = FunctionEquals ∨ f = FunctionNotEquals ∨ f = FunctionLessThan ∨
          f = FunctionLessEquals ∨ f = FunctionGreaterThan ∨ f = FunctionGreaterEquals then
        transpileEquality q f args nt
      else if f = FunctionAnd then
        match args with
        | [a0, a1] =>
          (match transpile q (some a0) nt with
           | .ok q' => transpile q' (some a1) nt
           | r => r)
        | _ => .err (.invalidArgument "AND requires two arguments")
      else
        .err (.invalidArgument ("unknown filter function " ++ f))) := by
  rw [transpile.eq_def]

/-- The tree walk preserves the cursor/ordering alignment invariant. -/
theorem transpile_aligned (q : QueryState) (e : Option Expr) (nt : Bool) :
    ∀ q', transpile q e nt = .ok q' → cursorAligned q → cursorAligned q' := by
  induction q, e, nt using transpile.induct with
  | case1 q nt =>
    intro q' h hal
    rw [transpile.eq_def] at h
    cases h
    exact hal
  | case2 q nt i a ih =>
    intro q' h hal
    rw [transpile_call_step, if_pos rfl] at h
    exact ih q' h hal
  | case3 q nt i args hx =>
    intro q' h hal
    rw [transpile_call_step, if_pos rfl] at h
    rcases args with _ | ⟨a, _ | ⟨b, t⟩⟩
    · cases h
    · exact absurd rfl (hx a)
    · cases h
  | case4 q nt i args hne =>
    intro q' h hal
    rw [transpile_call_step, if_neg hne, if_pos rfl] at h
    exact transpileHas_aligned q args nt q' h hal
  | case5 q nt i f args h1 h2 h3 =>
    intro q' h hal
    rw [transpile_call_step, if_neg h1, if_neg h2, if_pos h3] at h
    exact transpileEquality_aligned q f args nt q' h hal
  | case6 q nt i a0 a1 qmid hmid h1 h2 h3 ih2 ih1 =>
    intro q' h hal
    rw [transpile_call_step, if_neg h1, if_neg h2, if_neg h3, if_pos rfl] at h
    simp only [hmid] at h
    exact ih1 q' h (ih2 qmid hmid hal)
  | case7 q nt i a0 a1 h1 h2 h3 hfail ih =>
    intro q' h hal
    rw [transpile_call_step, if_neg h1, if_neg h2, if_neg h3, if_pos rfl] at h
    rcases htr : transpile q (some a0) nt with qmid | s | _
    · exact absurd htr (fun hh => hfail qmid hh)
    · simp only [htr] at h; cases h
    · simp only [htr] at h; cases h
  | case8 q nt i args hx h1 h2 h3 =>
    intro q' h hal
    rw [transpile_call_step, if_neg h1, if_neg h2, if_neg h3, if_pos rfl] at h
    rcases args with _ | ⟨a0, _ | ⟨a1, _ | ⟨a2, t⟩⟩⟩
    · cases h
    · cases h
    · exact absurd rfl (hx a0 a1)
    · cases h
  | case9 q nt i f args h1 h2 h3 h4 =>
    intro q' h hal
    rw [transpile_call_step, if_neg h1, if_neg h2, if_neg h3, if_neg h4] at h
    cases h
  | case10 q nt v hx =>
    intro q' h hal
    rcases v with ⟨i, _ | k⟩
    · rw [transpile.eq_def] at h; cases h
    rcases k with k | k | k | ⟨f, args⟩ | _
    · rw [transpile.eq_def] at h; cases h
    · rw [transpile.eq_def] at h; cases h
    · rw [transpile.eq_def] at h; cases h
    · exact absurd rfl (hx i f args)
    · rw [transpile.eq_def] at h; cases h



/-- C4: every ordering clause added during transpilation and pagination
stitching has a corresponding cursor value appended to the state's cursor
list, in the same order: the tree walk preserves the count alignment, a
non-negated `has` on a message-typed operand appends exactly one ascending
ordering clause together with one null cursor placeholder, and the full
entrypoint (whose stitcher pairs the document-identifier ordering with the
page-token cursor value) always produces an aligned state. -/
theorem c4_ordering_cursor_alignment :
    (∀ (q : QueryState) (e : Option Expr) (nt : Bool) (q' : QueryState),
      transpile q e nt = .ok q' → cursorAligned q → cursorAligned q') ∧
    (∀ (q : QueryState) (a0 a1 : Expr) (q' : QueryState),
      transpileHas q [a0, a1] false = .ok q' →
      ∃ path, q'.q.ops = q.q.ops ++ [.orderBy path .asc] ∧
        q'.startAfter = q.startAfter ++ [none]) ∧
    (∀ (parent collection pageToken : String) (pageSize : Int) (filter : CheckedExpr)
        (q'' : QueryState),
      Transpile parent collection pageToken pageSize filter = .ok q'' →
      cursorAligned q'') := by
  refine ⟨transpile_aligned, ?_, ?_⟩
  · intro q a0 a1 q' h
    rcases htk : q.typeOf a0.id with _ | (⟨mname⟩ | _ | _ | _)
    · simp [transpileHas, htk] at h
    · rcases hp : toPath (some a0) with perr | p
      · simp [transpileHas, htk, hp] at h
      rw [transpileHas_message q a0 a1 mname p htk hp false,
        if_neg (show ¬(false = true) by simp)] at h
      rcases hset : setInequality q
          (stripPath (p ++ "." ++ toCamel (getStringValue a1.getConstExpr))) with serr | q2
      · rw [hset] at h; cases h
      · rw [hset] at h
        cases h
        obtain ⟨hq, hsa⟩ := setInequality_ok_components _ _ _ hset
        exact ⟨_, by rw [hq], by rw [hsa]⟩
    · simp [transpileHas, htk] at h
    · simp [transpileHas, htk] at h
    · simp [transpileHas, htk] at h
  · intro parent collection pageToken pageSize filter q'' h
    rcases htr : transpile (initQueryState parent collection pageSize filter)
        filter.expr false with q1 | s | _
    · have hal1 : cursorAligned q1 := by
        refine transpile_aligned _ _ _ q1 htr ?_
        simp [cursorAligned, initQueryState, orderByCount, isOrderByOp]
      simp only [Transpile, htr] at h
      cases h
      split_ifs <;>
        simp_all [cursorAligned, orderByCount_append, orderByCount, isOrderByOp]
    · simp [Transpile, htr] at h
    · simp [Transpile, htr] at h



/-- C8: when transpilation succeeds and the page token is non-empty, the
final query appends an ascending document-identifier ordering after all the
walk's builder calls, applies the cursor list as a single `StartAfter`
argument (it is non-empty, so it is always applied), and the last cursor
value is exactly the page token string. -/
theorem c8_pagination (parent collection pageToken : String) (pageSize : Int)
    (filter : CheckedExpr) (q1 : QueryState)
    (hw : transpile (initQueryState parent collection pageSize filter) filter.expr false = .ok q1)
    (ht : pageToken ≠ "") :
    Transpile parent collection pageToken pageSize filter =
      .ok { q1 with
            q := { q1.q with ops := q1.q.ops ++
              [.orderBy DocumentID .asc,
               .startAfter (q1.startAfter ++ [some (Value.stringV pageToken)])] },
            startAfter := q1.startAfter ++ [some (Value.stringV pageToken)] } ∧
    (q1.startAfter ++ [some (Value.stringV pageToken)]).getLast? =
      some (some (Value.stringV pageToken)) := by
  constructor
  · simp only [Transpile, hw]
    rw [if_pos ht, if_pos (by simp)]
    simp
  · simp [List.getLast?_concat]

/-- C9: the older entrypoint validates the page size before anything else: a
negative page size is rejected with `InvalidArgument` no matter what the
parser would return, a non-negative one proceeds to the parse/build pipeline
(so an over-maximum value is not rejected), and the validation computes the
configured default for zero and clamps values above the configured maximum
down to it. -/
theorem c9_page_size_validation :
    (∀ (t : TranspilerCfg) (req : ListRequest) (parsed : Except Status CheckedExpr),
      req.pageSize < 0 →
      TranspileV0 t req parsed = .err (.invalidArgument "page size cannot be negative")) ∧
    (∀ (t : TranspilerCfg) (req : ListRequest) (parsed : Except Status CheckedExpr),
      0 ≤ req.pageSize →
      TranspileV0 t req parsed =
        (match parsed with
         | .error err => .err err
         | .ok filter => buildQueryV0 t req filter)) ∧
    (∀ t : TranspilerCfg, validatePageSize t 0 = .ok t.defaultPageSize) ∧
    (∀ (t : TranspilerCfg) (ps : Int), 0 < ps → t.maxPageSize < ps →
      validatePageSize t ps = .ok t.maxPageSize) ∧
    (∀ (t : TranspilerCfg) (ps : Int), 0 < ps → ps ≤ t.maxPageSize →
      validatePageSize t ps = .ok ps) := by
  refine ⟨?_, ?_, ?_, ?_, ?_⟩
  · intro t req parsed h
    simp [TranspileV0, validatePageSize, h]
  · intro t req parsed h
    unfold TranspileV0 validatePageSize
    split_ifs with h1 h2 h3 <;> first | omega | rfl
  · intro t; simp [validatePageSize]
  · intro t ps h1 h2; unfold validatePageSize; split_ifs <;> first | omega | rfl
  · intro t ps h1 h2; unfold validatePageSize; split_ifs <;> first | omega | rfl

/-- An empty checked expression (no filter). -/
def flt0 : CheckedExpr := ⟨none, []⟩
/-- The initial state for the empty filter with page size 10. -/
def q10 : QueryState := initQueryState "p" "c" 10 flt0

/-- Witness for C8: the empty filter with page token `"tok"`. -/
theorem c8_pagination_witness :
    Transpile "p" "c" "tok" 10 flt0 =
      .ok { q10 with
            q := { q10.q with
                   ops := q10.q.ops ++
                     [.orderBy DocumentID .asc,
                      .startAfter (q10.startAfter ++ [some (Value.stringV "tok")])] },
            startAfter := q10.startAfter ++ [some (Value.stringV "tok")] } ∧
    (q10.startAfter ++ [some (Value.stringV "tok")]).getLast? =
      some (some (Value.stringV "tok")) :=
  c8_pagination "p" "c" "tok" 10 flt0 q10 (by rw [transpile.eq_def]; rfl) (by decide)

/-- Witness for C9: page size `-1` is rejected. -/
theorem c9_page_size_witness :
    TranspileV0 ⟨"c", 10, 100⟩ ⟨"p", -1, "", ""⟩ (.ok flt0) =
      .err (.invalidArgument "page size cannot be negative") :=
  c9_page_size_validation.1 ⟨"c", 10, 100⟩ ⟨"p", -1, "", ""⟩ (.ok flt0) (by norm_num)

/-- Witness for C4: the state built for the empty filter with a page token
is aligned (one ordering clause, one cursor value). -/
theorem c4_alignment_witness :
    cursorAligned
      { q := { collection := "p/c"
               ops := [.limit 10, .orderBy DocumentID .asc,
                       .startAfter [some (Value.stringV "tok")]] }
        types := []
        inequality := ""
        startAfter := [some (Value.stringV "tok")] } :=
  c4_ordering_cursor_alignment.2.2 "p" "c" "tok" 10 flt0 _
    (by rw [Transpile.eq_def, transpile.eq_def]; simp [initQueryState, flt0])

end FilterStore
